import Mathlib

/-!
# Verification of the text/speech mental-health analysis pipeline

Shallow embedding of the pipeline implemented by the four Streamlit apps
(`Text Analysis/Text_Sentiment.py`, `Speech-Text-Analysis/Text_Sentiment.py`,
`Speech-Text-Analysis/Speech_Sentiment.py`, `Speech-Text-Analysis/speech-text.py`).

A Python `str` is modelled as its list of Unicode code points (`List Nat`).
The whitespace class (regex `\s`, `str.split()`, `str.strip()`) is modelled
in full.  The word class `\w` and `str.lower()` are modelled exactly on the
ASCII range together with the non-ASCII code points this development
evaluates: U+0130 (a Unicode letter, hence in `\w`, and the one code point
whose lowercase mapping expands, to `i` + U+0307) and U+0307 (a combining
mark, in neither `\w` nor `\s`).  Universal statements about the cleaning
pipeline are therefore made for ASCII inputs, where the model agrees with
Python character for character; the U+0130 code point serves as the
counterexample input on which the full-Unicode behaviour of `str.lower()`
breaks idempotence, the no-punctuation property and length monotonicity.
-/

namespace MHD

/-- A Python string, as its list of Unicode code points. -/
abbrev PyStr := List Nat

/-- Code points of a Lean string literal, used to write concrete Python strings. -/
def encode (s : String) : PyStr := s.data.map Char.toNat

/-- Python whitespace: the complete set of code points matched by the regex
class `\s` and treated as whitespace by `str.split()` / `str.strip()`:
U+0009–U+000D, U+001C–U+001F, space, U+0085, U+00A0, U+1680,
U+2000–U+200A, U+2028, U+2029, U+202F, U+205F and U+3000. -/
def isSpace (c : Nat) : Bool :=
  (9 ≤ c && c ≤ 13) || (28 ≤ c && c ≤ 32) || c == 133 || c == 160 ||
  c == 5760 || (8192 ≤ c && c ≤ 8202) || c == 8232 || c == 8233 ||
  c == 8239 || c == 8287 || c == 12288

/-- Python word characters (the regex class `\w` in Unicode mode): ASCII
digits, letters and underscore, together with all other Unicode letters and
digits.  Of the non-ASCII range the model lists only the code point this
development evaluates: U+0130 (LATIN CAPITAL LETTER I WITH DOT ABOVE, a
letter, so matched by `\w`).  Combining marks such as U+0307 and whitespace
are not matched by `\w`. -/
def isWordChar (c : Nat) : Bool :=
  (48 ≤ c && c ≤ 57) || (65 ≤ c && c ≤ 90) || (97 ≤ c && c ≤ 122) ||
  c == 95 || c == 304

/-- A character kept by `re.sub(r'[^\w\s]', '', text)`. -/
def wordOrSpace (c : Nat) : Bool := isWordChar c || isSpace c

/-- The simple (one-to-one) lowercase mapping: `A`–`Z` to `a`–`z` on ASCII;
non-ASCII one-to-one lowercase mappings (e.g. À to à) lie outside the
modelled domain and are left fixed — no theorem below evaluates them. -/
def lowerSimple (c : Nat) : Nat := if 65 ≤ c ∧ c ≤ 90 then c + 32 else c

/-- `str.lower()` on one character: the full Unicode lowercase mapping of a
code point, in general a *sequence* of code points.  U+0130 is the only
code point with an expanding lowercase mapping: `i` (U+0069) followed by
COMBINING DOT ABOVE (U+0307).  Every other code point maps through
`lowerSimple`. -/
def lowerChar (c : Nat) : List Nat :=
  if c = 304 then [105, 775] else [lowerSimple c]

/-- `str.lower()` on a string: concatenation of the per-character full
lowercase mappings. -/
def pyLower : PyStr → PyStr
  | [] => []
  | c :: cs => lowerChar c ++ pyLower cs

/-- An ASCII code point — the range on which the modelled character classes
and `lowerSimple` agree with Python character for character. -/
def isAscii (c : Nat) : Bool := c < 128

/-- `str.strip()`: remove leading and trailing whitespace. -/
def stripWS (l : PyStr) : PyStr :=
  (((l.dropWhile isSpace).reverse).dropWhile isSpace).reverse

/-- `(l.dropWhile p).length ≤ l.length`, proved here so it can justify
the termination of `splitWS`. -/
theorem dropWhile_length_le (p : Nat → Bool) (l : List Nat) :
    (l.dropWhile p).length ≤ l.length := by
  induction l with
  | nil => simp [List.dropWhile]
  | cons a l ih =>
    simp only [List.dropWhile]
    cases p a
    · exact Nat.le_refl _
    · simp only [List.length_cons]
      omega

/-- `str.split()` with no argument: split on runs of whitespace,
discarding empty chunks. -/
def splitWS (l : PyStr) : List PyStr :=
  match l with
  | [] => []
  | c :: cs =>
    if isSpace c then splitWS cs
    else (c :: cs.takeWhile (fun x => !isSpace x)) ::
         splitWS (cs.dropWhile (fun x => !isSpace x))
termination_by l.length
decreasing_by
  · simp
  · have := dropWhile_length_le (fun x => !isSpace x) cs
    simp
    omega

/-- Unfolding equation of `splitWS` on the empty string. -/
@[simp] theorem splitWS_nil : splitWS [] = [] := by
  rw [splitWS]

/-- Unfolding equation of `splitWS` on a cons. -/
theorem splitWS_cons (c : Nat) (cs : PyStr) :
    splitWS (c :: cs) =
      if isSpace c then splitWS cs
      else (c :: cs.takeWhile (fun x => !isSpace x)) ::
           splitWS (cs.dropWhile (fun x => !isSpace x)) := by
  rw [splitWS]

/-- `' '.join(words)`: concatenate with a single space (code point 32) between words. -/
def joinWords : List PyStr → PyStr
  | [] => []
  | [w] => w
  | w :: w' :: ws => w ++ 32 :: joinWords (w' :: ws)

/-- The NLTK English stopword corpus, the value of `stopwords.words('english')`
(contracted forms are written with `\x27` for the apostrophe). -/
def stopwordsEnglish : List PyStr :=
  ["i", "me", "my", "myself", "we", "our", "ours", "ourselves", "you",
   "you\x27re", "you\x27ve", "you\x27ll", "you\x27d", "your", "yours",
   "yourself", "yourselves", "he", "him", "his", "himself", "she",
   "she\x27s", "her", "hers", "herself", "it", "it\x27s", "its", "itself",
   "they", "them", "their", "theirs", "themselves", "what", "which", "who",
   "whom", "this", "that", "that\x27ll", "these", "those", "am", "is",
   "are", "was", "were", "be", "been", "being", "have", "has", "had",
   "having", "do", "does", "did", "doing", "a", "an", "the", "and", "but",
   "if", "or", "because", "as", "until", "while", "of", "at", "by", "for",
   "with", "about", "against", "between", "into", "through", "during",
   "before", "after", "above", "below", "to", "from", "up", "down", "in",
   "out", "on", "off", "over", "under", "again", "further", "then", "once",
   "here", "there", "when", "where", "why", "how", "all", "any", "both",
   "each", "few", "more", "most", "other", "some", "such", "no", "nor",
   "not", "only", "own", "same", "so", "than", "too", "very", "s", "t",
   "can", "will", "just", "don", "don\x27t", "should", "should\x27ve",
   "now", "d", "ll", "m", "o", "re", "ve", "y", "ain", "aren",
   "aren\x27t", "couldn", "couldn\x27t", "didn", "didn\x27t", "doesn",
   "doesn\x27t", "hadn", "hadn\x27t", "hasn", "hasn\x27t", "haven",
   "haven\x27t", "isn", "isn\x27t", "ma", "mightn", "mightn\x27t",
   "mustn", "mustn\x27t", "needn", "needn\x27t", "shan", "shan\x27t",
   "shouldn", "shouldn\x27t", "wasn", "wasn\x27t", "weren", "weren\x27t",
   "won", "won\x27t", "wouldn", "wouldn\x27t"].map encode

/-- Membership in the stopword set, the test `word in stopwords.words('english')`. -/
def isStopword (w : PyStr) : Bool := stopwordsEnglish.contains w

/-- `clean_text` from `Text Analysis/Text_Sentiment.py` (lines 32–37) and,
identically, `speech-text.py` (lines 37–41):

    text = re.sub(r'[^\w\s]', '', text)
    text = text.lower().strip()
    return ' '.join([word for word in text.split()
                    if word not in stopwords.words('english')])
-/
def clean_text (t : PyStr) : PyStr :=
  let t1 := t.filter wordOrSpace
  let t2 := stripWS (pyLower t1)
  joinWords ((splitWS t2).filter (fun w => !isStopword w))

/-- The `health_map` dict of `Text Analysis/Text_Sentiment.py` (lines 100–105),
also used verbatim on the text path of `speech-text.py` (lines 128–133),
combined with the lookup `health_map.get(label, ("Other", "#95a5a6"))`
(line 110).  The dict keys are pairwise distinct, so the dict-plus-default
lookup is this chain of equality tests. -/
def health_map_text (label : PyStr) : PyStr × PyStr :=
  if label = encode "sadness" then (encode "Potential Depression", encode "#e74c3c")
  else if label = encode "fear" then (encode "Anxiety Indicators", encode "#3498db")
  else if label = encode "anger" then (encode "Stress Markers", encode "#f1c40f")
  else if label = encode "neutral" then (encode "Baseline State", encode "#2ecc71")
  else (encode "Other", encode "#95a5a6")

/-- The `health_map` dict of the audio tab of `speech-text.py` (lines 203–208)
with its lookup `health_map.get(label, ("Other", "#95a5a6"))` (line 213). -/
def health_map_audio (label : PyStr) : PyStr × PyStr :=
  if label = encode "sadness" then (encode "Depression Risk", encode "#e74c3c")
  else if label = encode "fear" then (encode "Anxiety Signs", encode "#3498db")
  else if label = encode "anger" then (encode "Stress Level", encode "#f1c40f")
  else if label = encode "neutral" then (encode "Baseline State", encode "#2ecc71")
  else (encode "Other", encode "#95a5a6")

/-- The `health_map` dict of `Speech-Text-Analysis/Speech_Sentiment.py`
(lines 117–122; colour first, then category) with its lookup
`health_map.get(label, ("#95a5a6", "Neutral"))` (line 127). -/
def health_map_speech (label : PyStr) : PyStr × PyStr :=
  if label = encode "sadness" then (encode "#e74c3c", encode "Depression Risk")
  else if label = encode "fear" then (encode "#3498db", encode "Anxiety Signs")
  else if label = encode "anger" then (encode "#f1c40f", encode "Stress Level")
  else if label = encode "neutral" then (encode "#2ecc71", encode "Baseline State")
  else (encode "#95a5a6", encode "Neutral")

/-- One record of a classifier result: `{'label': ..., 'score': ...}`.
Confidence scores are modelled as exact rationals. -/
structure EmotionScore where
  label : PyStr
  score : ℚ
deriving DecidableEq

/-- The risk lookup applied to one prediction on the text path:
`health_map.get(pred['label'], ...)` — it reads only `pred['label']`
(`Text Analysis/Text_Sentiment.py` lines 107–110). -/
def mapToRiskText (pred : EmotionScore) : PyStr × PyStr :=
  health_map_text pred.label

/-- The risk lookup applied to one prediction on the audio path of
`speech-text.py` (lines 210–213): it reads only `emotion['label']`. -/
def mapToRiskAudio (pred : EmotionScore) : PyStr × PyStr :=
  health_map_audio pred.label

/-- The emotion labels of the classifier
(`j-hartmann/emotion-english-distilroberta-base`), as enumerated by the spec. -/
def emotionLabels : List PyStr :=
  [encode "sadness", encode "fear", encode "anger", encode "neutral",
   encode "joy", encode "surprise", encode "disgust"]

/-- A full classifier distribution: one score per supported label, each
confidence in [0, 1], confidences summing to 1 (softmax). -/
def isSoftmaxOutput (dist : List EmotionScore) : Bool :=
  (dist.map EmotionScore.label == emotionLabels) &&
  dist.all (fun e => decide (0 ≤ e.score) && decide (e.score ≤ 1)) &&
  decide ((dist.map EmotionScore.score).sum = 1)

/-- `out` contains a record for every supported emotion label. -/
def coversLabels (out : List EmotionScore) : Bool :=
  emotionLabels.all (fun l => out.any (fun e => e.label == l))

/-- A concrete softmax output of the external model: full confidence on
`sadness` (integer-valued scores, so that the sum evaluates by rewriting). -/
def pointDist : List EmotionScore :=
  [⟨encode "sadness", 1⟩, ⟨encode "fear", 0⟩, ⟨encode "anger", 0⟩,
   ⟨encode "neutral", 0⟩, ⟨encode "joy", 0⟩, ⟨encode "surprise", 0⟩,
   ⟨encode "disgust", 0⟩]

/-- How a `transformers.pipeline` was constructed: whether the keyword
argument `return_all_scores=...` was passed (`none` = not passed; the
library default is `False`). -/
structure PipelineConfig where
  return_all_scores : Option Bool
deriving DecidableEq

/-- `pipeline(..., return_all_scores=True)` in `load_emotion_model`,
`Text Analysis/Text_Sentiment.py` lines 42–48. -/
def load_emotion_model_config : PipelineConfig := ⟨some true⟩

/-- `pipeline(..., return_all_scores=True)` in `load_models`,
`speech-text.py` lines 26–34. -/
def unified_load_models_config : PipelineConfig := ⟨some true⟩

/-- `pipeline(..., return_all_scores=True)` in `load_models`,
`Speech-Text-Analysis/Speech_Sentiment.py` lines 12–25. -/
def speech_sentiment_config : PipelineConfig := ⟨some true⟩

/-- `pipeline("text-classification", model=...)` in `load_models`,
`Speech-Text-Analysis/Text_Sentiment.py` lines 12–20: `return_all_scores`
is NOT passed. -/
def sta_text_sentiment_config : PipelineConfig := ⟨none⟩

/-- The four classifier pipelines constructed in the repository. -/
def repoPipelineConfigs : List PipelineConfig :=
  [load_emotion_model_config, unified_load_models_config,
   speech_sentiment_config, sta_text_sentiment_config]

/-- First record with the maximal score (later records replace only on a
strictly greater score, as `numpy.argmax` keeps the first maximum). -/
def topScore : List EmotionScore → List EmotionScore
  | [] => []
  | e :: es => [es.foldl (fun b x => if b.score < x.score then x else b) e]

/-- Modelled from the spec: the external HuggingFace text-classification
model is not part of this repository.  Per the spec (§3 `EmotionScore`,
§4.4), a classifier call produces a softmax distribution over the supported
labels; the pipeline wrapper returns the full ordered list of
(label, confidence) records when the pipeline was constructed with
`return_all_scores=True`, and only the single highest-confidence record
otherwise (the library default). -/
def pipelineOutput (cfg : PipelineConfig) (dist : List EmotionScore) :
    List EmotionScore :=
  if cfg.return_all_scores = some true then dist else topScore dist

/-- Which pipeline branch a classifier call belongs to: direct text input,
or audio input (classifying a Whisper transcript). -/
inductive InputPath
  | text
  | audio
deriving DecidableEq

/-- One call of an emotion-classification pipeline, recording which keyword
arguments the call passes (`none` = argument not passed). -/
structure EmotionCallSite where
  path : InputPath
  truncation : Option Bool
  max_length : Option Nat
deriving DecidableEq

/-- `model(cleaned_text, truncation=True, max_length=512)` —
`Text Analysis/Text_Sentiment.py` line 88 (text path). -/
def text_analysis_call : EmotionCallSite := ⟨.text, some true, some 512⟩

/-- `model(cleaned_text, truncation=True, max_length=512)` —
`speech-text.py` line 121 (text path). -/
def unified_text_call : EmotionCallSite := ⟨.text, some true, some 512⟩

/-- `models['emotion_model'](result["text"])` — `speech-text.py` line 187
(audio path, classifying the Whisper transcript): no truncation argument
and no `max_length` argument are passed. -/
def unified_audio_call : EmotionCallSite := ⟨.audio, none, none⟩

/-- `models['emotion_model'](result["text"])` —
`Speech-Text-Analysis/Speech_Sentiment.py` line 99 (audio path). -/
def speech_sentiment_call : EmotionCallSite := ⟨.audio, none, none⟩

/-- `models['emotion_model'](transcription)[0]` —
`Speech-Text-Analysis/Text_Sentiment.py` line 73 (audio path). -/
def sta_text_sentiment_call : EmotionCallSite := ⟨.audio, none, none⟩

/-- Every emotion-classification call site in the repository. -/
def emotionCalls : List EmotionCallSite :=
  [text_analysis_call, unified_text_call, unified_audio_call,
   speech_sentiment_call, sta_text_sentiment_call]

/-- A call passes `truncation=True` together with `max_length=512`. -/
def truncatesTo512 (c : EmotionCallSite) : Bool :=
  c.truncation == some true && c.max_length == some 512

/-- Modelled from the spec: tokenisation inside the external HuggingFace
pipeline is not part of this repository.  Per the spec (§4.4), with
`truncation=True` and `max_length=m` the token sequence is silently cut to
its first `m` tokens; without truncation arguments the sequence is passed
through unchanged, and a sequence longer than the model's supported limit
of 512 tokens raises a length-related error (modelled as `none`). -/
def classifierInputTokens (c : EmotionCallSite) (toks : List PyStr) :
    Option (List PyStr) :=
  match c.truncation, c.max_length with
  | some true, some m => some (toks.take m)
  | _, _ => if toks.length ≤ 512 then some toks else none

/-- The acoustic features computed by `process_audio`
(`Speech-Text-Analysis/Speech_Sentiment.py` lines 31–39): the `'pitch'`
entry (`none` models the undefined / NaN estimate on unvoiced input) and
the `'energy'` entry.  The `'mfcc'` entry delegates wholly to
`librosa.feature.mfcc` and is outside the claims below. -/
structure AcousticFeatures where
  pitch : Option ℚ
  energy : ℚ
deriving DecidableEq

/-- Modelled from the spec: librosa's analysis-frame decomposition
(frame length 2048 samples, hop 512 samples, the library defaults used by
`librosa.yin` and `librosa.feature.rms`). -/
def audioFrames : List ℚ → List (List ℚ)
  | [] => []
  | s :: rest => ((s :: rest).take 2048) :: audioFrames ((s :: rest).drop 512)
termination_by w => w.length
decreasing_by
  simp [List.length_drop]
  omega

/-- Arithmetic mean of a list of rationals (`numpy.mean`); the mean of an
empty list is the degenerate value 0 here. -/
def listMean (l : List ℚ) : ℚ := l.sum / (l.length : ℚ)

/-- Modelled from the spec: square root on nonnegative rationals, as an
integer-scaled approximation standing in for the floating-point square
root inside `librosa.feature.rms`.  Only its value at 0 matters below. -/
def sqrtApprox (q : ℚ) : ℚ := (Nat.sqrt (q.num.toNat * q.den) : ℚ) / (q.den : ℚ)

/-- Per-frame root-mean-square amplitude (spec §4.2, `librosa.feature.rms`). -/
def frameRms (f : List ℚ) : ℚ := sqrtApprox (listMean (f.map (fun x => x * x)))

/-- `librosa.feature.rms(y=audio).mean()`: mean RMS amplitude across frames. -/
def audioEnergy (w : List ℚ) : ℚ := listMean ((audioFrames w).map frameRms)

/-- Modelled from the spec: `librosa.yin(audio, fmin=50, fmax=2000)` is
external DSP code.  The spec (§4.2) fixes only that per-frame
fundamental-frequency estimates are searched in [50, 2000] and that frames
carrying no signal produce no confident estimate.  A frame is modelled as
confident exactly when it contains a nonzero sample; the numeric estimate
of a confident frame is modelled as the lower search bound (its value is
irrelevant to the claims below). -/
def frameF0 (f : List ℚ) : Option ℚ :=
  if f.all (fun x => decide (x = 0)) then none else some 50

/-- `librosa.yin(...).mean()` per spec §4.2: the mean of the per-frame
estimates, or the undefined sentinel (`none`, the NaN of the Python code)
when no frame has a confident estimate. -/
def pitchEstimate (w : List ℚ) : Option ℚ :=
  if ((audioFrames w).filterMap frameF0).isEmpty then none
  else some (listMean ((audioFrames w).filterMap frameF0))

/-- `process_audio` (`Speech-Text-Analysis/Speech_Sentiment.py` lines
31–39, and identically `speech-text.py` lines 44–51) on a decoded
waveform: the `'pitch'` and `'energy'` entries of the returned dict. -/
def process_audio (audio : List ℚ) : AcousticFeatures :=
  { pitch := pitchEstimate audio, energy := audioEnergy audio }

/-- The pitch display of `Speech_Sentiment.py` line 108 (and identically
`speech-text.py` line 196): the f-string `f"{features['pitch']:.1f} Hz"`.
Python float formatting is total — it never raises — and formats the NaN
sentinel as the text `nan`, so an undefined pitch renders as "nan Hz".
The decimal rendering of a defined pitch is immaterial to the claims below
and is abstracted to its unit text. -/
def renderPitch (p : Option ℚ) : PyStr :=
  match p with
  | none => encode "nan Hz"
  | some _ => encode "Hz"

/-- A punctuation character in the sense of the cleaning regex: removed by
`re.sub(r'[^\w\s]', '', text)`, i.e. neither a word character nor whitespace. -/
def isPunct (c : Nat) : Bool := !isWordChar c && !isSpace c

/-! ## Character-class lemmas -/

/-- The simple lowercase mapping is idempotent. -/
theorem lowerSimple_lowerSimple (c : Nat) :
    lowerSimple (lowerSimple c) = lowerSimple c := by
  unfold lowerSimple
  split
  · split
    · omega
    · rfl
  · rfl

/-- On ASCII word-or-space characters, the simple lowercase mapping yields
a word-or-space character. -/
theorem lowerSimple_wordOrSpace {c : Nat} (ha : isAscii c = true)
    (h : wordOrSpace c = true) : wordOrSpace (lowerSimple c) = true := by
  simp only [wordOrSpace, isWordChar, isSpace, lowerSimple, isAscii,
    Bool.or_eq_true, Bool.and_eq_true, decide_eq_true_eq, beq_iff_eq] at ha h ⊢
  split <;> omega

/-- The simple lowercase mapping preserves the ASCII range. -/
theorem lowerSimple_ascii {c : Nat} (ha : isAscii c = true) :
    isAscii (lowerSimple c) = true := by
  simp only [lowerSimple, isAscii, decide_eq_true_eq] at ha ⊢
  split <;> omega

/-- ASCII code points have non-expanding lowercase mappings. -/
theorem lowerChar_ascii {c : Nat} (ha : isAscii c = true) :
    lowerChar c = [lowerSimple c] := by
  unfold lowerChar
  rw [if_neg]
  simp only [isAscii, decide_eq_true_eq] at ha
  omega

/-- `pyLower` on an ASCII string is the character-wise simple lowercasing. -/
theorem pyLower_ascii : ∀ {l : PyStr}, l.all isAscii = true →
    pyLower l = l.map lowerSimple
  | [], _ => rfl
  | c :: cs, h => by
    rw [List.all_cons, Bool.and_eq_true] at h
    show lowerChar c ++ pyLower cs = lowerSimple c :: cs.map lowerSimple
    rw [lowerChar_ascii h.1, pyLower_ascii h.2]
    rfl

/-- `all` is preserved by `filter`. -/
theorem all_filter_of_all {p q : Nat → Bool} {l : List Nat}
    (h : l.all q = true) : (l.filter p).all q = true := by
  rw [List.all_eq_true] at h ⊢
  exact fun c hc => h c ((List.filter_sublist _).subset hc)

/-! ## `stripWS` and `splitWS` lemmas -/

/-- Characters survive `stripWS` only if they were in the input. -/
theorem mem_stripWS {c : Nat} {l : PyStr} (h : c ∈ stripWS l) : c ∈ l := by
  unfold stripWS at h
  rw [List.mem_reverse] at h
  have h1 := List.dropWhile_subset (l := (l.dropWhile isSpace).reverse) isSpace h
  rw [List.mem_reverse] at h1
  exact List.dropWhile_subset isSpace h1

/-- `stripWS` never lengthens a string. -/
theorem stripWS_length_le (l : PyStr) : (stripWS l).length ≤ l.length := by
  unfold stripWS
  rw [List.length_reverse]
  calc ((l.dropWhile isSpace).reverse.dropWhile isSpace).length
      ≤ (l.dropWhile isSpace).reverse.length :=
        dropWhile_length_le isSpace _
    _ = (l.dropWhile isSpace).length := List.length_reverse _
    _ ≤ l.length := dropWhile_length_le isSpace l

/-- Every token produced by `splitWS` is nonempty, contains no whitespace,
and draws its characters from the input. -/
theorem splitWS_tokens : ∀ (l : PyStr), ∀ w ∈ splitWS l,
    w ≠ [] ∧ (∀ c ∈ w, isSpace c = false) ∧ (∀ c ∈ w, c ∈ l) := by
  intro l
  induction l using splitWS.induct with
  | case1 => simp
  | case2 c cs h ih =>
    rw [splitWS_cons, if_pos h]
    intro w hw
    obtain ⟨h1, h2, h3⟩ := ih w hw
    exact ⟨h1, h2, fun d hd => List.mem_cons_of_mem c (h3 d hd)⟩
  | case3 c cs h ih =>
    rw [splitWS_cons, if_neg h]
    intro w hw
    rcases List.mem_cons.mp hw with rfl | hw
    · refine ⟨List.cons_ne_nil _ _, ?_, ?_⟩
      · intro d hd
        rcases List.mem_cons.mp hd with rfl | hd
        · exact Bool.not_eq_true _ ▸ (by simpa using h)
        · have := List.mem_takeWhile_imp hd
          simpa using this
      · intro d hd
        rcases List.mem_cons.mp hd with rfl | hd
        · exact List.mem_cons_self _ _
        · exact List.mem_cons_of_mem c (List.takeWhile_subset _ hd)
    · obtain ⟨h1, h2, h3⟩ := ih w hw
      refine ⟨h1, h2, fun d hd => List.mem_cons_of_mem c (List.dropWhile_subset _ (h3 d hd))⟩

/-! ## `joinWords` lemmas and the split/join roundtrip -/

/-- Closed form of `joinWords` on a cons. -/
theorem joinWords_cons (w : PyStr) (ws : List PyStr) :
    joinWords (w :: ws) = w ++ (if ws.isEmpty then [] else 32 :: joinWords ws) := by
  cases ws with
  | nil => simp [joinWords]
  | cons w' ws => simp [joinWords]

/-- Every character of a join is a separator space or a character of a word. -/
theorem mem_joinWords {c : Nat} : ∀ {ws : List PyStr},
    c ∈ joinWords ws → c = 32 ∨ ∃ w ∈ ws, c ∈ w
  | [], h => by simp [joinWords] at h
  | [w], h => Or.inr ⟨w, List.mem_cons_self _ _, by simpa [joinWords] using h⟩
  | w :: w' :: ws, h => by
    simp only [joinWords, List.mem_append, List.mem_cons] at h
    rcases h with h | h | h
    · exact Or.inr ⟨w, List.mem_cons_self _ _, h⟩
    · exact Or.inl h
    · rcases mem_joinWords h with h32 | ⟨u, hu, hcu⟩
      · exact Or.inl h32
      · exact Or.inr ⟨u, List.mem_cons_of_mem _ hu, hcu⟩

/-- A join of words the first of which is nonempty is nonempty. -/
theorem joinWords_ne_nil {w : PyStr} {ws : List PyStr} (hw : w ≠ []) :
    joinWords (w :: ws) ≠ [] := by
  rw [joinWords_cons]
  intro hcontra
  exact hw (List.append_eq_nil.mp hcontra).1

/-- `splitWS` on a single nonempty whitespace-free word returns that word. -/
theorem splitWS_word {w : PyStr} (hne : w ≠ [])
    (hsp : ∀ c ∈ w, isSpace c = false) : splitWS w = [w] := by
  obtain ⟨c, w', rfl⟩ := List.exists_cons_of_ne_nil hne
  rw [splitWS_cons, if_neg (by simp [hsp c (List.mem_cons_self _ _)])]
  have htk : w'.takeWhile (fun x => !isSpace x) = w' :=
    List.takeWhile_eq_self_iff.mpr
      (fun x hx => by simp [hsp x (List.mem_cons_of_mem c hx)])
  have hdr : w'.dropWhile (fun x => !isSpace x) = [] := by
    have h := List.takeWhile_append_dropWhile (fun x => !isSpace x) w'
    rw [htk] at h
    have hlen := congrArg List.length h
    simp only [List.length_append] at hlen
    have hz : (w'.dropWhile (fun x => !isSpace x)).length = 0 := by omega
    exact List.eq_nil_of_length_eq_zero hz
  rw [htk, hdr]
  simp

/-- `splitWS` peels off a leading nonempty whitespace-free word followed by
a space. -/
theorem splitWS_word_append {w rest : PyStr} (hne : w ≠ [])
    (hsp : ∀ c ∈ w, isSpace c = false) :
    splitWS (w ++ 32 :: rest) = w :: splitWS rest := by
  obtain ⟨c, w', rfl⟩ := List.exists_cons_of_ne_nil hne
  rw [List.cons_append, splitWS_cons,
    if_neg (by simp [hsp c (List.mem_cons_self _ _)])]
  have hall : ∀ x ∈ w', (fun x => !isSpace x) x = true :=
    fun x hx => by simp [hsp x (List.mem_cons_of_mem c hx)]
  rw [List.takeWhile_append_of_pos hall, List.dropWhile_append_of_pos hall]
  simp +decide [splitWS_cons, List.takeWhile_cons, List.dropWhile_cons]

/-- Roundtrip: splitting a join of nonempty whitespace-free words recovers
the words. -/
theorem splitWS_joinWords : ∀ {ws : List PyStr},
    (∀ w ∈ ws, w ≠ []) → (∀ w ∈ ws, ∀ c ∈ w, isSpace c = false) →
    splitWS (joinWords ws) = ws
  | [], _, _ => by simp [joinWords]
  | [w], hne, hsp => by
    simpa [joinWords] using
      splitWS_word (hne w (List.mem_cons_self _ _)) (hsp w (List.mem_cons_self _ _))
  | w :: w' :: ws, hne, hsp => by
    show splitWS (w ++ 32 :: joinWords (w' :: ws)) = _
    rw [splitWS_word_append (hne w (List.mem_cons_self _ _))
      (hsp w (List.mem_cons_self _ _))]
    rw [splitWS_joinWords (fun u hu => hne u (List.mem_cons_of_mem _ hu))
      (fun u hu => hsp u (List.mem_cons_of_mem _ hu))]

/-- `dropWhile` is the identity when the head (if any) fails the predicate. -/
theorem dropWhile_eq_self_of_head {p : Nat → Bool} : ∀ {l : PyStr},
    (∀ a t, l = a :: t → p a = false) → l.dropWhile p = l
  | [], _ => rfl
  | a :: t, h => by
    rw [List.dropWhile_cons, h a t rfl]
    simp

/-- The first character of a join of nonempty whitespace-free words is not
whitespace. -/
theorem joinWords_head_not_space {ws : List PyStr}
    (hne : ∀ w ∈ ws, w ≠ []) (hsp : ∀ w ∈ ws, ∀ c ∈ w, isSpace c = false) :
    ∀ a t, joinWords ws = a :: t → isSpace a = false := by
  intro a t h
  cases ws with
  | nil => simp [joinWords] at h
  | cons w ws =>
    rw [joinWords_cons] at h
    obtain ⟨c, w', rfl⟩ := List.exists_cons_of_ne_nil (hne w (List.mem_cons_self _ _))
    rw [List.cons_append] at h
    have hc := (List.cons.injEq _ _ _ _).mp h
    rw [← hc.1]
    exact hsp _ (List.mem_cons_self _ _) c (List.mem_cons_self _ _)

/-- The last character of a join of nonempty whitespace-free words is not
whitespace (stated on the reverse). -/
theorem joinWords_reverse_head_not_space : ∀ {ws : List PyStr},
    (∀ w ∈ ws, w ≠ []) → (∀ w ∈ ws, ∀ c ∈ w, isSpace c = false) →
    ∀ a t, (joinWords ws).reverse = a :: t → isSpace a = false
  | [], _, _ => by intro a t h; simp [joinWords] at h
  | [w], hne, hsp => by
    intro a t h
    have hww : joinWords [w] = w := rfl
    rw [hww] at h
    have ha : a ∈ w.reverse := by rw [h]; exact List.mem_cons_self _ _
    rw [List.mem_reverse] at ha
    exact hsp w (List.mem_cons_self _ _) a ha
  | w :: w' :: ws, hne, hsp => by
    intro a t h
    have hJ : joinWords (w :: w' :: ws) = w ++ 32 :: joinWords (w' :: ws) := rfl
    rw [hJ, List.reverse_append, List.reverse_cons, List.append_assoc] at h
    have hne' : ∀ u ∈ w' :: ws, u ≠ [] := fun u hu => hne u (List.mem_cons_of_mem _ hu)
    have hsp' : ∀ u ∈ w' :: ws, ∀ c ∈ u, isSpace c = false :=
      fun u hu => hsp u (List.mem_cons_of_mem _ hu)
    have hJne : joinWords (w' :: ws) ≠ [] :=
      joinWords_ne_nil (hne' w' (List.mem_cons_self _ _))
    have hrevne : (joinWords (w' :: ws)).reverse ≠ [] := by
      simpa using hJne
    obtain ⟨b, bs, hb⟩ := List.exists_cons_of_ne_nil hrevne
    rw [hb, List.cons_append] at h
    have hinj := (List.cons.injEq _ _ _ _).mp h
    rw [← hinj.1]
    exact joinWords_reverse_head_not_space hne' hsp' b bs hb

/-- `stripWS` fixes a join of nonempty whitespace-free words. -/
theorem stripWS_joinWords {ws : List PyStr}
    (hne : ∀ w ∈ ws, w ≠ []) (hsp : ∀ w ∈ ws, ∀ c ∈ w, isSpace c = false) :
    stripWS (joinWords ws) = joinWords ws := by
  unfold stripWS
  rw [dropWhile_eq_self_of_head (joinWords_head_not_space hne hsp)]
  rw [dropWhile_eq_self_of_head (joinWords_reverse_head_not_space hne hsp)]
  exact List.reverse_reverse _

/-! ## Structure of `clean_text` -/

/-- `map f` is the identity when `f` fixes every member. -/
theorem map_id_of_mem {f : Nat → Nat} : ∀ {l : List Nat},
    (∀ c ∈ l, f c = c) → l.map f = l
  | [], _ => rfl
  | a :: t, h => by
    rw [List.map_cons, h a (List.mem_cons_self _ _),
      map_id_of_mem (fun c hc => h c (List.mem_cons_of_mem a hc))]

/-- The word list of `clean_text t` before joining. -/
def cleanTokens (t : PyStr) : List PyStr :=
  (splitWS (stripWS (pyLower (t.filter wordOrSpace)))).filter
    (fun w => !isStopword w)

/-- `clean_text` is the join of its word list. -/
theorem clean_text_eq_join (t : PyStr) : clean_text t = joinWords (cleanTokens t) := rfl

/-- The words of `clean_text t` are nonempty and whitespace-free, and their
characters come from the lowercased punctuation-stripped input. -/
theorem cleanTokens_props (t : PyStr) : ∀ w ∈ cleanTokens t,
    w ≠ [] ∧ (∀ c ∈ w, isSpace c = false) ∧
    ∀ c ∈ w, c ∈ pyLower (t.filter wordOrSpace) := by
  intro w hw
  have hw' : w ∈ splitWS (stripWS (pyLower (t.filter wordOrSpace))) :=
    List.filter_sublist _ |>.subset hw
  obtain ⟨h1, h2, h3⟩ := splitWS_tokens _ w hw'
  exact ⟨h1, h2, fun c hc => mem_stripWS (h3 c hc)⟩

/-- Splitting `clean_text t` recovers exactly its word list. -/
theorem splitWS_clean_text (t : PyStr) :
    splitWS (clean_text t) = cleanTokens t := by
  rw [clean_text_eq_join]
  exact splitWS_joinWords
    (fun w hw => (cleanTokens_props t w hw).1)
    (fun w hw => (cleanTokens_props t w hw).2.1)

/-- For ASCII input, every character of `clean_text t` is an ASCII
word-or-space character fixed by the simple lowercase mapping. -/
theorem clean_text_chars_ascii {t : PyStr} (ht : t.all isAscii = true) :
    ∀ c ∈ clean_text t,
      isAscii c = true ∧ wordOrSpace c = true ∧ lowerSimple c = c := by
  intro c hc
  rw [clean_text_eq_join] at hc
  rcases mem_joinWords hc with rfl | ⟨w, hw, hcw⟩
  · exact ⟨by decide, by decide, by decide⟩
  · have hct := (cleanTokens_props t w hw).2.2 c hcw
    have ht1 : (t.filter wordOrSpace).all isAscii = true := all_filter_of_all ht
    rw [pyLower_ascii ht1] at hct
    obtain ⟨d, hd, rfl⟩ := List.mem_map.mp hct
    have hdw : wordOrSpace d = true := (List.mem_filter.mp hd).2
    have hda : isAscii d = true := by
      rw [List.all_eq_true] at ht1
      exact ht1 d hd
    exact ⟨lowerSimple_ascii hda, lowerSimple_wordOrSpace hda hdw,
      lowerSimple_lowerSimple d⟩

/-! ## Length lemmas -/

/-- Joining fewer words is never longer (cons step). -/
theorem joinWords_length_le_cons (w : PyStr) (ws : List PyStr) :
    (joinWords ws).length ≤ (joinWords (w :: ws)).length := by
  rw [joinWords_cons]
  cases ws with
  | nil => simp [joinWords]
  | cons w' ws' =>
    simp only [List.isEmpty_cons, if_neg Bool.false_ne_true, List.length_append,
      List.length_cons]
    omega

/-- Joining a sublist of the words is never longer. -/
theorem joinWords_sublist_length : ∀ {ws₁ ws₂ : List PyStr}, ws₁.Sublist ws₂ →
    (joinWords ws₁).length ≤ (joinWords ws₂).length := by
  intro ws₁ ws₂ h
  induction h with
  | slnil => exact Nat.le_refl _
  | cons w h ih => exact Nat.le_trans ih (joinWords_length_le_cons _ _)
  | @cons₂ l₁ l₂ w h ih =>
    rw [joinWords_cons, joinWords_cons]
    cases l₁ with
    | nil =>
      cases l₂ <;> simp [List.length_append]
    | cons u us =>
      cases l₂ with
      | nil => exact absurd (List.sublist_nil.mp h) (List.cons_ne_nil u us)
      | cons v vs =>
        simp only [List.isEmpty_cons, if_neg Bool.false_ne_true,
          List.length_append, List.length_cons]
        have := ih
        omega

/-- The head of a nonempty `dropWhile` result fails the predicate. -/
theorem dropWhile_head_false {p : Nat → Bool} : ∀ {l : PyStr} {a : Nat} {t : PyStr},
    l.dropWhile p = a :: t → p a = false
  | [], _, _, h => by simp at h
  | b :: l, a, t, h => by
    rw [List.dropWhile_cons] at h
    by_cases hb : p b = true
    · rw [if_pos hb] at h
      exact dropWhile_head_false h
    · rw [if_neg hb] at h
      have := (List.cons.injEq _ _ _ _).mp h
      rw [← this.1]
      simpa using hb

/-- Splitting and rejoining never lengthens a string: split discards at
least one whitespace character for each separator the join reinserts. -/
theorem joinWords_splitWS_le : ∀ (n : ℕ) (l : PyStr), l.length ≤ n →
    (joinWords (splitWS l)).length ≤ l.length := by
  intro n
  induction n with
  | zero =>
    intro l hl
    have h0 : l = [] := List.eq_nil_of_length_eq_zero (Nat.le_zero.mp hl)
    subst h0
    simp [joinWords]
  | succ n ih =>
    intro l hl
    cases l with
    | nil => simp [joinWords]
    | cons c cs =>
      rw [splitWS_cons]
      by_cases hc : isSpace c = true
      · rw [if_pos hc]
        have h1 : (joinWords (splitWS cs)).length ≤ cs.length :=
          ih cs (by simpa using Nat.succ_le_succ_iff.mp (by simpa using hl))
        simp only [List.length_cons]
        omega
      · rw [if_neg hc]
        have hcs : cs.takeWhile (fun x => !isSpace x) ++
            cs.dropWhile (fun x => !isSpace x) = cs :=
          List.takeWhile_append_dropWhile _ cs
        have hlen : cs.length = (cs.takeWhile (fun x => !isSpace x)).length +
            (cs.dropWhile (fun x => !isSpace x)).length := by
          rw [← hcs, List.length_append]
          simp [hcs]
        cases hdre : cs.dropWhile (fun x => !isSpace x) with
        | nil =>
          rw [splitWS_nil]
          have hJ : joinWords [c :: cs.takeWhile (fun x => !isSpace x)] =
              c :: cs.takeWhile (fun x => !isSpace x) := rfl
          rw [hJ]
          rw [hdre] at hlen
          simp only [List.length_cons]
          simp at hlen
          omega
        | cons d ds =>
          have hd : isSpace d = true := by
            have := dropWhile_head_false hdre
            simpa using this
          rw [splitWS_cons, if_pos hd]
          have hds : ds.length ≤ n := by
            have h1 : (cs.dropWhile (fun x => !isSpace x)).length ≤ cs.length :=
              dropWhile_length_le _ cs
            rw [hdre] at h1
            simp only [List.length_cons] at h1 hl
            omega
          have hrec := ih ds hds
          rw [hdre] at hlen
          simp only [List.length_cons] at hlen
          cases hsplit : splitWS ds with
          | nil =>
            have hJ : joinWords [c :: cs.takeWhile (fun x => !isSpace x)] =
                c :: cs.takeWhile (fun x => !isSpace x) := rfl
            rw [hJ]
            simp only [List.length_cons]
            omega
          | cons u us =>
            have hJ : joinWords ((c :: cs.takeWhile (fun x => !isSpace x)) :: u :: us) =
                (c :: cs.takeWhile (fun x => !isSpace x)) ++ 32 :: joinWords (u :: us) := rfl
            rw [hJ]
            rw [hsplit] at hrec
            simp only [List.length_cons, List.length_append]
            omega

/-! ## Audio lemmas -/

/-- Unfolding equation of `audioFrames` on the empty waveform. -/
theorem audioFrames_nil : audioFrames [] = [] := by
  rw [audioFrames]

/-- Unfolding equation of `audioFrames` on a cons. -/
theorem audioFrames_cons (s : ℚ) (rest : List ℚ) :
    audioFrames (s :: rest) =
      ((s :: rest).take 2048) :: audioFrames ((s :: rest).drop 512) := by
  rw [audioFrames]

/-- Every analysis frame of an all-zero waveform is an all-zero frame. -/
theorem audioFrames_replicate_zero : ∀ (n : ℕ),
    ∀ f ∈ audioFrames (List.replicate n (0 : ℚ)),
      ∃ k, f = List.replicate k (0 : ℚ) := by
  intro n
  induction n using Nat.strong_induction_on with
  | _ n ih =>
    cases n with
    | zero =>
      intro f hf
      simp [audioFrames_nil] at hf
    | succ m =>
      intro f hf
      rw [List.replicate_succ, audioFrames_cons] at hf
      rcases List.mem_cons.mp hf with rfl | hf
      · exact ⟨min 2048 (m + 1), by rw [← List.replicate_succ, List.take_replicate]⟩
      · have hdrop : (0 :: List.replicate m (0:ℚ)).drop 512 =
            List.replicate (m + 1 - 512) (0:ℚ) := by
          rw [← List.replicate_succ, List.drop_replicate]
        rw [hdrop] at hf
        exact ih (m + 1 - 512) (by omega) f hf

/-- The mean of an all-zero list is 0. -/
theorem listMean_replicate_zero (k : ℕ) : listMean (List.replicate k (0:ℚ)) = 0 := by
  unfold listMean
  rw [List.sum_eq_zero (fun x hx => List.eq_of_mem_replicate hx)]
  exact zero_div _

/-- The modelled square root of 0 is 0. -/
theorem sqrtApprox_zero : sqrtApprox 0 = 0 := by
  unfold sqrtApprox
  norm_num

/-- The RMS amplitude of an all-zero frame is 0. -/
theorem frameRms_replicate_zero (k : ℕ) : frameRms (List.replicate k (0:ℚ)) = 0 := by
  unfold frameRms
  rw [List.map_replicate]
  have h0 : (0:ℚ) * 0 = 0 := by norm_num
  rw [h0, listMean_replicate_zero, sqrtApprox_zero]

/-- The mean RMS energy of an all-zero waveform is 0. -/
theorem audioEnergy_replicate_zero (n : ℕ) :
    audioEnergy (List.replicate n (0:ℚ)) = 0 := by
  unfold audioEnergy listMean
  rw [List.sum_eq_zero]
  · exact zero_div _
  · intro x hx
    obtain ⟨f, hf, rfl⟩ := List.mem_map.mp hx
    obtain ⟨k, rfl⟩ := audioFrames_replicate_zero n f hf
    exact frameRms_replicate_zero k

/-- The pitch estimate of an all-zero waveform is the undefined sentinel. -/
theorem pitchEstimate_replicate_zero (n : ℕ) :
    pitchEstimate (List.replicate n (0:ℚ)) = none := by
  have h : (audioFrames (List.replicate n (0:ℚ))).filterMap frameF0 = [] := by
    rw [List.filterMap_eq_nil_iff]
    intro f hf
    obtain ⟨k, rfl⟩ := audioFrames_replicate_zero n f hf
    unfold frameF0
    rw [if_pos]
    rw [List.all_eq_true]
    intro x hx
    simpa using List.eq_of_mem_replicate hx
  unfold pitchEstimate
  rw [h]
  rfl

/-! ## Claim theorems -/

/-- C1 (counterexample): the claim that every emotion-classification call
truncates its input to at most 512 tokens on both paths, never raising a
length-related error, is false: the audio-path call of `speech-text.py`
line 187 passes no truncation arguments, and on a 513-token transcript the
classifier raises a length error instead of truncating. -/
theorem C1_counterexample :
    unified_audio_call ∈ emotionCalls ∧
    truncatesTo512 unified_audio_call = false ∧
    classifierInputTokens unified_audio_call
      (List.replicate 513 (encode "a")) = none := by
  refine ⟨by decide, by decide, ?_⟩
  unfold classifierInputTokens unified_audio_call
  rw [if_neg (by rw [List.length_replicate]; omega)]

/-- C1 (amended): exactly the text-path classification calls pass
`truncation=True, max_length=512`, silently truncating any token sequence
to its first 512 tokens with no error; the audio-path calls pass no
truncation arguments at all. -/
theorem C1_truncation_text_path_only :
    ∀ c ∈ emotionCalls,
      (c.path = InputPath.text →
        truncatesTo512 c = true ∧
        ∀ toks : List PyStr, classifierInputTokens c toks = some (toks.take 512)) ∧
      (c.path = InputPath.audio →
        c.truncation = none ∧ c.max_length = none) := by
  intro c hc
  simp only [emotionCalls, List.mem_cons, List.not_mem_nil, or_false] at hc
  rcases hc with rfl | rfl | rfl | rfl | rfl
  · exact ⟨fun _ => ⟨by decide, fun toks => rfl⟩, fun h => absurd h (by decide)⟩
  · exact ⟨fun _ => ⟨by decide, fun toks => rfl⟩, fun h => absurd h (by decide)⟩
  · exact ⟨fun h => absurd h (by decide), fun _ => ⟨rfl, rfl⟩⟩
  · exact ⟨fun h => absurd h (by decide), fun _ => ⟨rfl, rfl⟩⟩
  · exact ⟨fun h => absurd h (by decide), fun _ => ⟨rfl, rfl⟩⟩

/-- C1 (witness): the text-path call of `Text Analysis/Text_Sentiment.py`
silently truncates a concrete 513-token input. -/
theorem C1_truncation_text_path_only_witness :
    truncatesTo512 text_analysis_call = true ∧
    classifierInputTokens text_analysis_call (List.replicate 513 (encode "a")) =
      some ((List.replicate 513 (encode "a")).take 512) := by
  have h := (C1_truncation_text_path_only text_analysis_call (by decide)).1 rfl
  exact ⟨h.1, h.2 _⟩

/-- C2 (counterexample): the pipeline of
`Speech-Text-Analysis/Text_Sentiment.py` is constructed without
`return_all_scores`, so its classification call returns a single record
and does not cover the label set — shown on a concrete softmax output. -/
theorem C2_counterexample :
    sta_text_sentiment_config ∈ repoPipelineConfigs ∧
    isSoftmaxOutput pointDist = true ∧
    (pipelineOutput sta_text_sentiment_config pointDist).length = 1 ∧
    coversLabels (pipelineOutput sta_text_sentiment_config pointDist) = false := by
  have hout : pipelineOutput sta_text_sentiment_config pointDist =
      topScore pointDist := by
    unfold pipelineOutput
    rw [if_neg (by simp [sta_text_sentiment_config])]
  have htop : topScore pointDist = [⟨encode "sadness", 1⟩] := by
    norm_num [topScore, pointDist]
  refine ⟨by decide, ?_, ?_, ?_⟩
  · simp [isSoftmaxOutput, pointDist, emotionLabels, encode]
  · rw [hout, htop]
    rfl
  · rw [hout, htop]
    simp +decide [coversLabels, emotionLabels, encode]

/-- C2 (amended): for any softmax distribution produced by the external
model, the three pipelines constructed with `return_all_scores=True`
return the full ordered sequence — covering every supported label, each
confidence in [0, 1], confidences summing to exactly 1 — while the
pipeline of `Speech-Text-Analysis/Text_Sentiment.py` (constructed without
`return_all_scores`) returns a single top-scoring record. -/
theorem C2_classifier_output (dist : List EmotionScore)
    (hdist : isSoftmaxOutput dist = true) :
    (∀ cfg ∈ repoPipelineConfigs, cfg.return_all_scores = some true →
      pipelineOutput cfg dist = dist ∧
      coversLabels (pipelineOutput cfg dist) = true ∧
      (∀ e ∈ pipelineOutput cfg dist, 0 ≤ e.score ∧ e.score ≤ 1) ∧
      ((pipelineOutput cfg dist).map EmotionScore.score).sum = 1) ∧
    (pipelineOutput sta_text_sentiment_config dist).length = 1 := by
  unfold isSoftmaxOutput at hdist
  simp only [Bool.and_eq_true, beq_iff_eq, List.all_eq_true,
    decide_eq_true_eq] at hdist
  obtain ⟨⟨hlab, hbnd⟩, hsum⟩ := hdist
  constructor
  · intro cfg hcfg hret
    have hout : pipelineOutput cfg dist = dist := by
      unfold pipelineOutput
      rw [if_pos hret]
    refine ⟨hout, ?_, ?_, ?_⟩
    · rw [hout]
      unfold coversLabels
      rw [List.all_eq_true]
      intro l hl
      rw [← hlab] at hl
      obtain ⟨e, he, rfl⟩ := List.mem_map.mp hl
      rw [List.any_eq_true]
      exact ⟨e, he, by simp⟩
    · rw [hout]
      intro e he
      exact hbnd e he
    · rw [hout]
      exact hsum
  · have hne : dist ≠ [] := by
      intro h0
      rw [h0] at hlab
      simp [emotionLabels] at hlab
    obtain ⟨e, es, rfl⟩ := List.exists_cons_of_ne_nil hne
    unfold pipelineOutput
    rw [if_neg (by simp [sta_text_sentiment_config])]
    rfl

/-- C2 (witness): the `Text Analysis` pipeline on a concrete softmax
output. -/
theorem C2_classifier_output_witness :
    pipelineOutput load_emotion_model_config pointDist = pointDist ∧
    coversLabels (pipelineOutput load_emotion_model_config pointDist) = true := by
  have h := (C2_classifier_output pointDist
    (by simp [isSoftmaxOutput, pointDist, emotionLabels, encode])).1
    load_emotion_model_config (by decide) rfl
  exact ⟨h.1, h.2.1⟩

/-- C3 (counterexample): on "I feel hopeless and empty" the normalizer does
not merely lowercase: the output differs from the lowercased input because
the stopwords "i" and "and" are removed. -/
theorem C3_counterexample :
    clean_text (encode "I feel hopeless and empty") ≠
      pyLower (encode "I feel hopeless and empty") := by
  simp +decide [clean_text, splitWS_cons, encode, stripWS, pyLower,
    lowerChar, lowerSimple, joinWords]

/-- C3 (amended): on "I feel hopeless and empty" the normalizer lowercases
and removes the stopwords "i" and "and", returning "feel hopeless empty";
the risk mapper maps the label `sadness` to "Potential Depression". -/
theorem C3_scenario1 :
    clean_text (encode "I feel hopeless and empty") =
      encode "feel hopeless empty" ∧
    health_map_text (encode "sadness") =
      (encode "Potential Depression", encode "#e74c3c") := by
  constructor
  · simp +decide [clean_text, splitWS_cons, encode, stripWS, pyLower,
      lowerChar, lowerSimple, joinWords]
  · decide

/-- C4 (counterexample): the tokens of the normalized output are not in
general a strict subset of the input's tokens (on "hello" the token lists
are equal), and they need not be drawn from the raw input's tokens at all
(on "Hello" the output token "hello" is not an input token). -/
theorem C4_counterexample :
    (¬ ((splitWS (clean_text (encode "hello"))).Sublist
          (splitWS (encode "hello")) ∧
        splitWS (clean_text (encode "hello")) ≠ splitWS (encode "hello"))) ∧
    ¬ ((splitWS (clean_text (encode "Hello"))).Sublist
        (splitWS (encode "Hello"))) := by
  constructor
  · rintro ⟨-, hne⟩
    apply hne
    simp +decide [clean_text, splitWS_cons, encode, stripWS, pyLower,
      lowerChar, lowerSimple, joinWords]
  · intro hsub
    have h1 : splitWS (clean_text (encode "Hello")) = [encode "hello"] := by
      simp +decide [clean_text, splitWS_cons, encode, stripWS, pyLower,
        lowerChar, lowerSimple, joinWords]
    have h2 : splitWS (encode "Hello") = [encode "Hello"] := by
      simp +decide [splitWS_cons, encode]
    rw [h1, h2] at hsub
    rcases List.sublist_singleton.mp hsub with h | h <;> revert h <;> decide

/-- C4 (amended): for every input, the token list of the normalized output
is an order-preserving sublist — possibly equal, hence not necessarily
strict — of the token list of the lowercased punctuation-stripped input
(not of the raw input, whose tokens may differ in case or carry
punctuation). -/
theorem C4_tokens_sublist (t : PyStr) :
    (splitWS (clean_text t)).Sublist
      (splitWS (stripWS (pyLower (t.filter wordOrSpace)))) := by
  rw [splitWS_clean_text]
  exact List.filter_sublist _

/-- C5 (counterexample): the normalizer is not idempotent on full Unicode
input.  On "İ" (U+0130) the first pass keeps the letter and lowercases it
to `i` + U+0307; the second pass strips the combining mark U+0307 (it is
neither `\w` nor `\s`) and then drops the remaining token "i", a stopword,
so the second application changes the output. -/
theorem C5_counterexample :
    clean_text (clean_text (encode "İ")) ≠ clean_text (encode "İ") := by
  have h : clean_text (encode "İ") = [105, 775] := by
    simp +decide [clean_text, splitWS_cons, encode, stripWS, pyLower,
      lowerChar, lowerSimple, joinWords]
  rw [h]
  have h2 : clean_text [105, 775] = [] := by
    simp +decide [clean_text, splitWS_cons, stripWS, pyLower,
      lowerChar, lowerSimple, joinWords, encode]
  rw [h2]
  decide

/-- C5 (amended): the text normalizer is idempotent on every ASCII input:
`clean_text (clean_text t) = clean_text t` whenever all code points of `t`
are ASCII (the expanding Unicode lowercase mapping of U+0130 breaks the
unrestricted statement). -/
theorem C5_clean_text_idempotent (t : PyStr) (ht : t.all isAscii = true) :
    clean_text (clean_text t) = clean_text t := by
  have hchars := clean_text_chars_ascii ht
  have hout : (clean_text t).all isAscii = true := by
    rw [List.all_eq_true]
    exact fun c hc => (hchars c hc).1
  have h1 : (clean_text t).filter wordOrSpace = clean_text t :=
    List.filter_eq_self.mpr (fun c hc => (hchars c hc).2.1)
  have h2 : pyLower (clean_text t) = clean_text t := by
    rw [pyLower_ascii hout]
    exact map_id_of_mem (fun c hc => (hchars c hc).2.2)
  have h3 : stripWS (clean_text t) = clean_text t := by
    rw [clean_text_eq_join]
    exact stripWS_joinWords (fun w hw => (cleanTokens_props t w hw).1)
      (fun w hw => (cleanTokens_props t w hw).2.1)
  have h4 : splitWS (clean_text t) = cleanTokens t := splitWS_clean_text t
  have h5 : (cleanTokens t).filter (fun w => !isStopword w) = cleanTokens t := by
    refine List.filter_eq_self.mpr (fun w hw => ?_)
    have hw' : w ∈ (splitWS (stripWS (pyLower (t.filter
        wordOrSpace)))).filter (fun w => !isStopword w) := hw
    exact (List.mem_filter.mp hw').2
  show joinWords ((splitWS (stripWS (pyLower ((clean_text t).filter
    wordOrSpace)))).filter (fun w => !isStopword w)) = clean_text t
  rw [h1, h2, h3, h4, h5, ← clean_text_eq_join]

/-- C5 (witness): idempotence at a concrete ASCII input. -/
theorem C5_clean_text_idempotent_witness :
    clean_text (clean_text (encode "I feel hopeless and empty")) =
      clean_text (encode "I feel hopeless and empty") :=
  C5_clean_text_idempotent (encode "I feel hopeless and empty") (by decide)

/-- C6 (counterexample): on full Unicode input the normalized output can
contain a punctuation character in the cleaning regex's own sense: the
output of `clean_text` on "İ" is `i` + U+0307, and the combining mark
U+0307 is neither `\w` nor `\s`. -/
theorem C6_counterexample :
    (clean_text (encode "İ")).all (fun c => !isPunct c) = false := by
  have h : clean_text (encode "İ") = [105, 775] := by
    simp +decide [clean_text, splitWS_cons, encode, stripWS, pyLower,
      lowerChar, lowerSimple, joinWords]
  rw [h]
  decide

/-- C6 (amended): for every input, none of the whitespace-tokens of the
normalized output belongs to the stopword set; and for every ASCII input
the normalized output contains no punctuation character (no character the
cleaning regex removes) — the punctuation-freeness fails on full Unicode
input, where lowercasing U+0130 introduces the combining mark U+0307. -/
theorem C6_no_punct_no_stopword (t : PyStr) :
    ((splitWS (clean_text t)).all (fun w => !isStopword w) = true) ∧
    (t.all isAscii = true →
      (clean_text t).all (fun c => !isPunct c) = true) := by
  constructor
  · rw [splitWS_clean_text, List.all_eq_true]
    intro w hw
    have hw' : w ∈ (splitWS (stripWS (pyLower (t.filter
        wordOrSpace)))).filter (fun w => !isStopword w) := hw
    exact (List.mem_filter.mp hw').2
  · intro ht
    rw [List.all_eq_true]
    intro c hc
    have h := (clean_text_chars_ascii ht c hc).2.1
    unfold wordOrSpace at h
    unfold isPunct
    cases hW : isWordChar c <;> cases hS : isSpace c <;> simp_all

/-- C6 (witness): punctuation-freeness at a concrete ASCII input. -/
theorem C6_no_punct_no_stopword_witness :
    (clean_text (encode "I feel hopeless and empty")).all
      (fun c => !isPunct c) = true :=
  (C6_no_punct_no_stopword (encode "I feel hopeless and empty")).2 (by decide)

/-- C7: the risk mappers are total pure lookups: every label — including
labels outside {sadness, fear, anger, neutral} — yields one of the five
defined (category, colour) pairs, and any unmapped label yields the
default "Other" / "Neutral" entry with the default colour. -/
theorem C7_health_map_total (label : PyStr) :
    (health_map_text label ∈
      [(encode "Potential Depression", encode "#e74c3c"),
       (encode "Anxiety Indicators", encode "#3498db"),
       (encode "Stress Markers", encode "#f1c40f"),
       (encode "Baseline State", encode "#2ecc71"),
       (encode "Other", encode "#95a5a6")]) ∧
    (health_map_speech label ∈
      [(encode "#e74c3c", encode "Depression Risk"),
       (encode "#3498db", encode "Anxiety Signs"),
       (encode "#f1c40f", encode "Stress Level"),
       (encode "#2ecc71", encode "Baseline State"),
       (encode "#95a5a6", encode "Neutral")]) ∧
    (label ∉ [encode "sadness", encode "fear", encode "anger",
        encode "neutral"] →
      health_map_text label = (encode "Other", encode "#95a5a6") ∧
      health_map_speech label = (encode "#95a5a6", encode "Neutral")) := by
  refine ⟨?_, ?_, ?_⟩
  · unfold health_map_text
    split_ifs <;> simp
  · unfold health_map_speech
    split_ifs <;> simp
  · intro hnot
    simp only [List.mem_cons, List.not_mem_nil, or_false, not_or] at hnot
    obtain ⟨n1, n2, n3, n4⟩ := hnot
    unfold health_map_text health_map_speech
    rw [if_neg n1, if_neg n2, if_neg n3, if_neg n4,
      if_neg n1, if_neg n2, if_neg n3, if_neg n4]
    exact ⟨rfl, rfl⟩

/-- C7 (witness): the unmapped label "joy" falls back to the defaults. -/
theorem C7_health_map_total_witness :
    health_map_text (encode "joy") = (encode "Other", encode "#95a5a6") ∧
    health_map_speech (encode "joy") = (encode "#95a5a6", encode "Neutral") :=
  (C7_health_map_total (encode "joy")).2.2 (by decide)

/-- C8: on an all-zero waveform of any length, `process_audio` returns
energy 0 and the undefined sentinel pitch, and the downstream f-string
display (`f"{...:.1f} Hz"`, `Speech_Sentiment.py` line 108) renders that
sentinel as the text "nan Hz" — a valid non-error output — rather than
failing. -/
theorem C8_silent_waveform (n : ℕ) :
    (process_audio (List.replicate n (0:ℚ))).energy = 0 ∧
    (process_audio (List.replicate n (0:ℚ))).pitch = none ∧
    renderPitch (process_audio (List.replicate n (0:ℚ))).pitch =
      encode "nan Hz" := by
  refine ⟨audioEnergy_replicate_zero n, pitchEstimate_replicate_zero n, ?_⟩
  show renderPitch (pitchEstimate _) = _
  rw [pitchEstimate_replicate_zero n]
  rfl

/-- C9 (counterexample): on full Unicode input normalization can lengthen
its input: "İyi" has 3 code points, but lowercasing expands U+0130 to two
code points, so `clean_text "İyi"` has 4. -/
theorem C9_counterexample :
    (encode "İyi").length < (clean_text (encode "İyi")).length := by
  have h : clean_text (encode "İyi") = [105, 775, 121, 105] := by
    simp +decide [clean_text, splitWS_cons, encode, stripWS, pyLower,
      lowerChar, lowerSimple, joinWords]
  rw [h]
  decide

/-- C9 (amended): on every ASCII input, normalization never lengthens:
`clean_text t` (a total function, so it terminates without raising) is at
most as long as `t` whenever all code points of `t` are ASCII — the
expanding lowercase mapping of U+0130 breaks the unrestricted statement. -/
theorem C9_length_le (t : PyStr) (ht : t.all isAscii = true) :
    (clean_text t).length ≤ t.length := by
  have hp : pyLower (t.filter wordOrSpace) =
      (t.filter wordOrSpace).map lowerSimple :=
    pyLower_ascii (all_filter_of_all ht)
  have h1 : (joinWords (cleanTokens t)).length ≤
      (joinWords (splitWS (stripWS (pyLower (t.filter
        wordOrSpace))))).length :=
    joinWords_sublist_length (List.filter_sublist _)
  have h2 : (joinWords (splitWS (stripWS (pyLower (t.filter
      wordOrSpace))))).length ≤
      (stripWS (pyLower (t.filter wordOrSpace))).length :=
    joinWords_splitWS_le _ _ (Nat.le_refl _)
  have h3 : (stripWS (pyLower (t.filter wordOrSpace))).length ≤
      (pyLower (t.filter wordOrSpace)).length :=
    stripWS_length_le _
  have h4 : (pyLower (t.filter wordOrSpace)).length =
      (t.filter wordOrSpace).length := by
    rw [hp]
    exact List.length_map _ _
  have h5 : (t.filter wordOrSpace).length ≤ t.length :=
    List.length_filter_le _ _
  rw [clean_text_eq_join]
  omega

/-- C9 (witness): the length bound at a concrete ASCII input. -/
theorem C9_length_le_witness :
    (clean_text (encode "I feel hopeless and empty")).length ≤
      (encode "I feel hopeless and empty").length :=
  C9_length_le (encode "I feel hopeless and empty") (by decide)

/-- C10: the risk mapping reads only the emotion label, never the
confidence score: predictions with equal labels and arbitrary scores map
to identical (category, colour) pairs, on both display paths. -/
theorem C10_risk_ignores_score (p q : EmotionScore) (h : p.label = q.label) :
    mapToRiskText p = mapToRiskText q ∧ mapToRiskAudio p = mapToRiskAudio q := by
  unfold mapToRiskText mapToRiskAudio
  rw [h]
  exact ⟨rfl, rfl⟩

/-- C10 (witness): two sadness predictions with different confidences map
identically. -/
theorem C10_risk_ignores_score_witness :
    mapToRiskText ⟨encode "sadness", 9/10⟩ =
      mapToRiskText ⟨encode "sadness", 1/10⟩ ∧
    mapToRiskAudio ⟨encode "sadness", 9/10⟩ =
      mapToRiskAudio ⟨encode "sadness", 1/10⟩ :=
  C10_risk_ignores_score _ _ rfl

end MHD
